import Mathlib

/-!
Verification of the `mikino` binary front end (OCamlPro/mikino_bin) against its
natural-language specification.

The binary drives the `mikino_api` verification engine: it parses command-line
arguments (`src/mode.rs`), runs the induction (base + step) checks and BMC
(`src/main.rs`, `Check::run` / `Check::bmc`), and reports verdicts.  Pure
decision logic from the source is embedded below as executable Lean functions;
the parts of the engine that live in the external `mikino_api` crate (the
`CheckRes` bookkeeping, result merging, BMC progress queries) are modelled from
the specification and marked as such in their doc comments.
-/

namespace Mikino

/-! ## Check-result model -/

/-- Modelled from the spec: a concrete value of one of the three sorts
(`Bool`, `Int`, `Rat`); rationals are exact pairs of numerator/denominator. -/
inductive Val where
  | bv (b : Bool)
  | iv (i : Int)
  | rv (num : Int) (den : Int)
deriving DecidableEq, Repr

/-- Modelled from the spec: a counterexample (`mikino_api check::cexs::Cex`),
an ordered sequence of `(step_index, assignment)` pairs plus an `unexpected`
map for auxiliary symbols the solver reported but the checker did not declare. -/
structure Cex where
  trace : List (Nat × List (String × Val))
  unexpected : List (String × String)
deriving DecidableEq, Repr

/-- Modelled from the spec: `mikino_api check::CheckRes`.  Holds (1) a
reference to the system's candidate-name set (`sys`), (2) `okay`: the
candidate names still considered safe by this check, (3) `cexs`:
name-to-counterexample pairs for falsifications found by this check.
`BaseRes` and `StepRes` are newtype wrappers around this structure. -/
structure CheckRes where
  sys : List String
  okay : List String
  cexs : List (String × Cex)
deriving DecidableEq, Repr

/-- Modelled from the spec: `CheckRes::has_falsifications` — true when this
check found at least one counterexample. -/
def hasFalsifications (r : CheckRes) : Bool :=
  !r.cexs.isEmpty

/-- Modelled from the spec: `CheckRes::all_falsified` — the BMC working set
`okay` is empty, i.e. no candidate remains for BMC to search. -/
def allFalsified (r : CheckRes) : Bool :=
  r.okay.isEmpty

/-- Modelled from the spec: `BaseRes::merge_base_with_step` (mikino_api).
Builds the BMC seed: `cexs` are the base counterexamples (initial-state
falsifications are real and must be reported as such); candidates falsified
only at the step (base-okay but step-falsified) are placed in `okay` so BMC
will attempt to falsify them concretely; candidates proven by both checks
need no BMC and are excluded from the seed's working set ("practically the
seed passed in excludes them").  Merging fails only if the two results do
not reference the same system. -/
def mergeBaseWithStep (base step : CheckRes) : Except String CheckRes :=
  if base.sys = step.sys then
    .ok { sys := base.sys
        , okay := base.okay.filter fun c => (step.cexs.map Prod.fst).contains c
        , cexs := base.cexs }
  else
    .error "trying to merge inconsistent base/step check results"

/-! ## `Check::bmc` entry (src/main.rs lines 466-485)

`Check::bmc(max, base, step)` first builds the BMC seed: when a step result is
present it merges it with the base result (chaining the context
"during base/step result merge for BMC" on failure), otherwise it reuses the
base result's inner `CheckRes`.  If the seed satisfies `all_falsified()` it
returns `Ok(())` immediately — before the banner is printed and before the
solver session (`check::Bmc::new`) is created. -/

/-- Outcome of the entry portion of `Check::bmc`: either BMC was skipped
(returned `Ok(())` with no solver session) or a solver session is started on
the given seed. -/
inductive BmcStart where
  | skipped
  | session (seed : CheckRes)
deriving DecidableEq, Repr

/-- Entry logic of `Check::bmc` (src/main.rs 466-485): seed construction,
merge-error context chaining, and the `all_falsified` short-circuit. -/
def bmcEntry (base : CheckRes) (step : Option CheckRes) : Except (List String) BmcStart :=
  match step with
  | some s =>
    match mergeBaseWithStep base s with
    | .error e => .error ["during base/step result merge for BMC", e]
    | .ok seed => if allFalsified seed then .ok .skipped else .ok (.session seed)
  | none =>
    let seed : CheckRes := { sys := base.sys, okay := base.okay, cexs := base.cexs }
    if allFalsified seed then .ok .skipped else .ok (.session seed)

/-! ## Induction report (src/main.rs `Check::run`, lines 366-463) -/

/-- Final verdict lines the tool can print. -/
inductive Verdict where
  | safe
  | isUnsafe
  | mightBeUnsafe
deriving DecidableEq, Repr

/-- Verdict branch of the induction report (src/main.rs 406-434): safe when
neither check has falsifications, unsafe when the base check has
falsifications, might-be-unsafe when only the step check has falsifications. -/
def inductionVerdict (base step : CheckRes) : Option Verdict :=
  if !hasFalsifications base && !hasFalsifications step then
    some .safe
  else if hasFalsifications base then
    some .isUnsafe
  else if hasFalsifications step then
    some .mightBeUnsafe
  else
    none

/-- Extra report of `Check::run` (src/main.rs 436-458): printed only when some
candidate was falsified by base or step and some candidate name is in both
`okay` sets; it then lists `base_res.okay.intersection(&step_res.okay)`. -/
def inductionExtraReport (base step : CheckRes) : Option (List String) :=
  if (hasFalsifications base || hasFalsifications step)
      && base.okay.any (fun b => step.okay.any fun s => b == s) then
    some (base.okay.filter fun c => step.okay.contains c)
  else
    none

/-- Verdict branch of the BMC report (src/main.rs 548-561): unsafe as soon as
the base result or the final BMC result has a counterexample, otherwise
might-be-unsafe. -/
def bmcVerdict (baseCexs bmcCexs : List (String × Cex)) : Verdict :=
  if !baseCexs.isEmpty || !bmcCexs.isEmpty then .isUnsafe else .mightBeUnsafe

/-! ## BMC driving loop (src/main.rs 488-517) -/

/-- The loop guard of `Check::bmc`
(`while !bmc.is_done() && max.map(|max| max >= bmc.next_check_step()).unwrap_or(true)`). -/
def bmcGuard (done : Bool) (max : Option Nat) (next : Nat) : Bool :=
  !done && ((max.map fun m => decide (next ≤ m)).getD true)

/-- Modelled from the spec: `Bmc::is_done` (mikino_api) — BMC runs until
`okay` is empty, so the engine is done exactly when no candidate remains
unfalsified in its working set. -/
def bmcIsDone (r : CheckRes) : Bool :=
  r.okay.isEmpty

/-- The BMC driving loop, fuel-bounded.  `isDoneAt k` abstracts the value of
`bmc.is_done()` when the next depth to check is `k` (the depth starts at 0 and
increases by one per iteration; modelled from the spec, `k ← k + 1`).  Returns
`some k` when the loop exits with next depth `k` within the given fuel, and
`none` when the fuel runs out with the loop still running. -/
def bmcLoop (isDoneAt : Nat → Bool) (max : Option Nat) : Nat → Nat → Option Nat
  | 0, _ => none
  | fuel + 1, k =>
    if bmcGuard (isDoneAt k) max k then bmcLoop isDoneAt max fuel (k + 1) else some k

/-! ## Command-line handling (src/mode.rs, src/main.rs `Run::new`) -/

/-- The fields of `Mode::Check` that `cla::try_check` computes
(src/mode.rs 126-142). -/
structure CheckMode where
  induction : Bool
  bmc : Bool
  bmcMax : Option Nat
deriving DecidableEq, Repr

/-- `cla::try_check` (src/mode.rs 126-142): `bmc` starts as the presence of
the `--bmc` flag and is forced to `true` by `get_bmc_max`'s `if_present_do`
callback whenever a `--bmc_max` value is present; `induction` is always
`true` for the `check` subcommand. -/
def tryCheck (bmcFlag : Bool) (bmcMaxVal : Option Nat) : CheckMode :=
  { induction := true
  , bmc := bmcFlag || bmcMaxVal.isSome
  , bmcMax := bmcMaxVal }

/-- Verbosity computation of `Run::new` (src/main.rs 85-99):
`verb = ((occurrences_of("VERB") + 1) % 4)`, then `0` if quiet, `4` if
`verb > 4`, else `verb`. -/
def effectiveVerb (quiet : Bool) (vOcc : Nat) : Nat :=
  let verb := (vOcc + 1) % 4
  if quiet then 0
  else if verb > 4 then 4
  else verb

/-! ## Error propagation (src/main.rs `Run::launch`, `Check::base_check`,
`Check::step_check`, `Check::bmc`) -/

/-- Errors as chains of context strings, outermost context first
(`error_chain`'s `chain_err` wraps an error in a new description; iterating
the chain yields the outer context before its cause). -/
abbrev ErrChain := List String

/-- `chain_err(|| ctx)` as used in src/main.rs: pushes a context string onto
the error chain. -/
def chainErr (ctx : String) (e : ErrChain) : ErrChain := ctx :: e

/-- `Check::base_check` (src/main.rs 568-597): checker creation chained with
"during base checker creation", then the check itself chained with
"during base check".  The raw outcomes of the two fallible solver operations
are passed in as `Except` values. -/
def baseCheck (create : Except ErrChain Unit) (res : Except ErrChain CheckRes) :
    Except ErrChain CheckRes := do
  let _ ← create.mapError (chainErr "during base checker creation")
  res.mapError (chainErr "during base check")

/-- `Check::step_check` (src/main.rs 600-627): same shape as the base check,
with the contexts "during step checker creation" and "during step check". -/
def stepCheck (create : Except ErrChain Unit) (res : Except ErrChain CheckRes) :
    Except ErrChain CheckRes := do
  let _ ← create.mapError (chainErr "during step checker creation")
  res.mapError (chainErr "during step check")

/-- The error context `Check::bmc` attaches around `bmc.next_check()` at a
given depth (src/main.rs 497-502); with colorless styles the depth is
rendered as its plain decimal string. -/
def bmcCheckAt (depth : Nat) (raw : Except ErrChain Bool) : Except ErrChain Bool :=
  raw.mapError
    (chainErr ("while checking for falsifications at depth " ++ toString depth ++ " in BMC"))

/-- `Check::run` (src/main.rs 366-368) runs the base check then the step
check, propagating the first error unchanged; a base-check error means the
step outcome is never consulted (no retry, no continuation). -/
def checkRun (baseRes stepRes : Except ErrChain CheckRes) :
    Except ErrChain (CheckRes × CheckRes) := do
  let b ← baseRes
  let s ← stepRes
  .ok (b, s)

/-- `Run::launch` (src/main.rs 113-130): on error, prints a banner, then every
error of the chain (the outermost first, prefixed "| ", the causes prefixed
"| - "), then a closing banner; the process then terminates.  Each chain
entry is modelled as a single pretty line. -/
def launchOutput : Except ErrChain Unit → List String
  | .ok _ => []
  | .error [] => ["|===| Error", "|===|"]
  | .error (e0 :: rest) =>
    "|===| Error" :: ("| " ++ e0) :: (rest.map fun e => "| - " ++ e) ++ ["|===|"]

/-! ## `--bmc_max` validation (src/mode.rs `cla::validate_int`,
`cla::get_bmc_max`) -/

/-- Modelled from the spec: the fragment of Rust `char::is_numeric` (the
Unicode numeric property) needed here — ASCII digits `0`-`9` and the
Arabic-Indic digits U+0660..U+0669 are numeric; `char::is_numeric` accepts
many such non-ASCII characters. -/
def charIsNumericM (c : Char) : Bool :=
  ('0' ≤ c && c ≤ '9') || (0x660 ≤ c.toNat && c.toNat ≤ 0x669)

/-- The indexed character loop of `cla::validate_int` (src/mode.rs 214-224):
the character at index 0 must be numeric and differ from `'0'`, characters at
later indices must be numeric; any violation aborts with an error (`false`). -/
def validateIntLoop (isNumeric : Char → Bool) : Nat → List Char → Bool
  | _, [] => true
  | idx, c :: rest =>
    if idx = 0 then
      if !(isNumeric c) || c == '0' then false else validateIntLoop isNumeric (idx + 1) rest
    else
      if !(isNumeric c) then false else validateIntLoop isNumeric (idx + 1) rest

/-- `cla::validate_int` (src/mode.rs 207-227), parameterized by the
`char::is_numeric` predicate: `"0"` is accepted outright, every other string
is scanned by the indexed loop (which vacuously accepts the empty string).
`true` models `Ok(())`. -/
def validateInt (isNumeric : Char → Bool) (s : List Char) : Bool :=
  if s = ['0'] then true else validateIntLoop isNumeric 0 s

/-- Modelled from the spec: Rust `usize::from_str_radix(_, 10)` — succeeds
only on non-empty strings of ASCII digits `0`-`9` (the optional leading sign,
which the validator rejects anyway, and overflow are not modelled); in
particular it rejects the empty string and every non-ASCII digit. -/
def fromStrRadix10 (s : List Char) : Option Nat :=
  if s.isEmpty || !(s.all fun c => '0' ≤ c && c ≤ '9') then none
  else some (s.foldl (fun a c => 10 * a + (c.toNat - '0'.toNat)) 0)

/-- `cla::get_bmc_max` (src/mode.rs 78-84): maps the raw `--bmc_max` value
through `usize::from_str_radix(val, 10).expect(..)`; an inner `none` models
the `expect` panic. -/
def getBmcMax (val : Option (List Char)) : Option (Option Nat) :=
  val.map fun v => fromStrRadix10 v

/-! ## Term model and the shipped stopwatch demo fixture (src/rsc/demo.rs) -/

/-- The three sorts of the term model. -/
inductive Srt where
  | bool
  | int
  | rat
deriving DecidableEq, Repr

/-- The fixed operator set of the term model. -/
inductive Op where
  | opAnd
  | opOr
  | opNot
  | opImplies
  | opEq
  | opIte
  | opAdd
  | opSub
  | opMul
  | opDiv
  | opMod
  | opRDiv
  | opLt
  | opLe
  | opGe
  | opGt
deriving DecidableEq, Repr

/-- Typed terms: constants, current-state variable references, previous-state
references (`pre v`), and operator applications; if-then-else is the `opIte`
operator applied to three arguments, as written in the system syntax. -/
inductive Term where
  | boolC (b : Bool)
  | intC (i : Int)
  | varT (v : String)
  | preT (v : String)
  | app (op : Op) (args : List Term)

/-- A transition system: ordered variable declarations, initial predicate,
transition predicate, and the ordered name-to-candidate map (`po_s`). -/
structure Sys where
  vars : List (String × Srt)
  init : Term
  trans : Term
  poS : List (String × Term)

/-- The shipped stopwatch demo system (src/rsc/demo.rs lines 53-95),
transcribed node by node from the fixture file. -/
def demoSys : Sys :=
  { vars := [("stop", .bool), ("reset", .bool), ("cnt", .int)]
  , init := .app .opAnd
      [ .app .opGe [.varT "cnt", .intC 0]
      , .app .opImplies [.varT "reset", .app .opEq [.varT "cnt", .intC 0]] ]
  , trans := .app .opIte
      [ .varT "reset"
      , .app .opEq [.varT "cnt", .intC 0]
      , .app .opIte
          [ .varT "stop"
          , .app .opEq [.varT "cnt", .preT "cnt"]
          , .app .opEq [.varT "cnt", .app .opAdd [.preT "cnt", .intC 1]] ] ]
  , poS :=
      [ ("cnt is positive", .app .opGe [.varT "cnt", .intC 0])
      , ("cnt is not -7", .app .opNot [.app .opEq [.varT "cnt", .app .opSub [.intC 7]]])
      , ("if reset then cnt is 0",
          .app .opImplies [.varT "reset", .app .opEq [.varT "cnt", .intC 0]]) ] }

end Mikino

namespace Mikino

/-! ## Theorems -/

/-- Helper: the `validate_int` loop accepts any all-numeric suffix at a
positive index. -/
theorem validateIntLoop_all (isNumeric : Char → Bool) :
    ∀ (rest : List Char) (idx : Nat), idx ≠ 0 → rest.all isNumeric = true →
      validateIntLoop isNumeric idx rest = true := by
  intro rest
  induction rest with
  | nil => intro idx _ _; rfl
  | cons c cs ih =>
    intro idx hidx hall
    rw [List.all_cons, Bool.and_eq_true] at hall
    simp only [validateIntLoop, if_neg hidx, hall.1, Bool.not_true, Bool.false_eq_true,
      if_false]
    exact ih (idx + 1) (by omega) hall.2

/-- C4: the induction report declares the system safe if and only if neither
the base result nor the step result has any falsification: `Check::run`
prints the safe verdict exactly when both `cexs` lists are empty. -/
theorem induction_safe_iff_no_falsifications (base step : CheckRes) :
    inductionVerdict base step = some Verdict.safe ↔
      (base.cexs = [] ∧ step.cexs = []) := by
  cases hb : base.cexs <;> cases hs : step.cexs <;>
    simp [inductionVerdict, hasFalsifications, hb, hs]

/-- C3: whenever the base check produced at least one counterexample the
induction report prints "unsafe" regardless of the step result, and the BMC
report prints "unsafe" whenever the base cexs or the final BMC cexs are
non-empty. -/
theorem unsafe_verdict_when_base_falsified (base step : CheckRes)
    (bmcCexs : List (String × Cex)) (h : hasFalsifications base = true) :
    inductionVerdict base step = some Verdict.isUnsafe ∧
      (base.cexs ≠ [] ∨ bmcCexs ≠ [] →
        bmcVerdict base.cexs bmcCexs = Verdict.isUnsafe) := by
  constructor
  · simp [inductionVerdict, h]
  · intro hne
    rcases hne with hne | hne <;> simp [bmcVerdict, hne]

/-- Witness for `unsafe_verdict_when_base_falsified` at a concrete run. -/
theorem unsafe_verdict_when_base_falsified_witness :
    inductionVerdict
        ⟨["nonneg"], [], [("nonneg", ⟨[], []⟩)]⟩ ⟨["nonneg"], ["nonneg"], []⟩ =
      some Verdict.isUnsafe ∧
      ([("nonneg", (⟨[], []⟩ : Cex))] ≠ [] ∨ ([] : List (String × Cex)) ≠ [] →
        bmcVerdict [("nonneg", ⟨[], []⟩)] [] = Verdict.isUnsafe) :=
  unsafe_verdict_when_base_falsified
    ⟨["nonneg"], [], [("nonneg", ⟨[], []⟩)]⟩ ⟨["nonneg"], ["nonneg"], []⟩ [] (by decide)

/-- C5: when some candidate is falsified by base or step and some candidate
name is in both `okay` sets, `Check::run` prints exactly the candidates of
`BaseRes.okay ∩ StepRes.okay` as holding on all reachable states; when no
candidate is falsified, or the intersection is empty, the extra report is not
printed. -/
theorem intersection_report_exact (base step : CheckRes) :
    ((hasFalsifications base || hasFalsifications step) = true →
      (∃ c, c ∈ base.okay ∧ c ∈ step.okay) →
      ∃ l, inductionExtraReport base step = some l ∧
        ∀ c, c ∈ l ↔ (c ∈ base.okay ∧ c ∈ step.okay)) ∧
    (hasFalsifications base = false ∧ hasFalsifications step = false →
      inductionExtraReport base step = none) ∧
    ((∀ c, ¬(c ∈ base.okay ∧ c ∈ step.okay)) →
      inductionExtraReport base step = none) := by
  refine ⟨?_, ?_, ?_⟩
  · intro hf ⟨c, hcb, hcs⟩
    refine ⟨base.okay.filter fun c => step.okay.contains c, ?_, ?_⟩
    · have hany : base.okay.any (fun b => step.okay.any fun s => b == s) = true := by
        simp only [List.any_eq_true, beq_iff_eq]
        exact ⟨c, hcb, c, hcs, rfl⟩
      simp [inductionExtraReport, hf, hany]
    · intro d
      simp [List.mem_filter, List.contains, List.elem_iff]
  · rintro ⟨hb, hs⟩
    simp [inductionExtraReport, hb, hs]
  · intro hno
    have hany : base.okay.any (fun b => step.okay.any fun s => b == s) = false := by
      simp only [List.any_eq_false]
      intro b hb hs
      rw [List.any_eq_true] at hs
      obtain ⟨s, hs, hbs⟩ := hs
      exact hno b ⟨hb, (beq_iff_eq.mp hbs) ▸ hs⟩
    simp [inductionExtraReport, hany]

/-- Witness for `intersection_report_exact` at a concrete run: base falsifies
`B`, both checks keep `A`, so exactly `A` is reported. -/
theorem intersection_report_exact_witness :
    ∃ l, inductionExtraReport
        ⟨["A", "B"], ["A"], [("B", ⟨[], []⟩)]⟩ ⟨["A", "B"], ["A", "B"], []⟩ = some l ∧
      ∀ c, c ∈ l ↔ (c ∈ ["A"] ∧ c ∈ ["A", "B"]) :=
  (intersection_report_exact
      ⟨["A", "B"], ["A"], [("B", ⟨[], []⟩)]⟩ ⟨["A", "B"], ["A", "B"], []⟩).1
    (by decide) ⟨"A", by decide, by decide⟩

/-- C9: `cla::try_check` enables BMC whenever a `--bmc_max` value is present
even without the `--bmc` flag; `bmc` is `false` only when neither is given;
`induction` is always `true` for the `check` subcommand. -/
theorem try_check_bmc_enabled_by_max (f : Bool) (v : Option Nat) :
    ((tryCheck f v).bmc = true ↔ (f = true ∨ v.isSome = true)) ∧
      ((tryCheck f v).bmc = false ↔ (f = false ∧ v = none)) ∧
      (tryCheck f v).induction = true ∧
      (tryCheck f v).bmcMax = v := by
  cases f <;> cases v <;> simp [tryCheck]

/-- C10: without `-q` the effective verbosity is `(occurrences of -v + 1) % 4`
(zero `-v` gives 1, three `-v` wrap to 0), the `verb > 4` clamp branch is
unreachable because `(v + 1) % 4 < 4` for every count, and with `-q` the
verbosity is 0 regardless of the `-v` count. -/
theorem run_new_verbosity :
    (∀ v, effectiveVerb false v = (v + 1) % 4) ∧
      effectiveVerb false 0 = 1 ∧
      effectiveVerb false 3 = 0 ∧
      (∀ v, ((v + 1) % 4 > 4) = False) ∧
      (∀ v, effectiveVerb true v = 0) := by
  refine ⟨fun v => ?_, rfl, rfl, fun v => eq_false (by omega), fun v => rfl⟩
  have h : ¬((v + 1) % 4 > 4) := by omega
  simp [effectiveVerb, h]

/-- C1: when the base check and the step check each discharge every candidate
(both `okay` sets equal the full candidate set and both `cexs` are empty),
the merged BMC seed satisfies `all_falsified()` and `Check::bmc` returns
`Ok(())` before any solver session is created. -/
theorem bmc_skipped_when_all_discharged (base step : CheckRes) (cands : List String)
    (hbsys : base.sys = cands) (hssys : step.sys = cands)
    (hbo : base.okay = cands) (hbc : base.cexs = [])
    (hso : step.okay = cands) (hsc : step.cexs = []) :
    ∃ seed, mergeBaseWithStep base step = .ok seed ∧ allFalsified seed = true ∧
      bmcEntry base (some step) = .ok BmcStart.skipped := by
  have hsys : base.sys = step.sys := by rw [hbsys, hssys]
  have hm : mergeBaseWithStep base step =
      .ok { sys := base.sys, okay := [], cexs := base.cexs } := by
    simp [mergeBaseWithStep, hsys, hsc, List.filter_eq_nil_iff]
  refine ⟨_, hm, rfl, ?_⟩
  simp [bmcEntry, hm, allFalsified]

/-- Witness for `bmc_skipped_when_all_discharged`: one candidate, both checks
discharge it, BMC is skipped. -/
theorem bmc_skipped_when_all_discharged_witness :
    ∃ seed,
      mergeBaseWithStep ⟨["nonneg"], ["nonneg"], []⟩ ⟨["nonneg"], ["nonneg"], []⟩ =
        .ok seed ∧
      allFalsified seed = true ∧
      bmcEntry ⟨["nonneg"], ["nonneg"], []⟩ (some ⟨["nonneg"], ["nonneg"], []⟩) =
        .ok BmcStart.skipped :=
  bmc_skipped_when_all_discharged ⟨["nonneg"], ["nonneg"], []⟩
    ⟨["nonneg"], ["nonneg"], []⟩ ["nonneg"] rfl rfl rfl rfl rfl rfl

/-- C2: the BMC loop guard holds exactly while some candidate remains
unfalsified and (when a max is supplied) the next depth is at most that max;
the bound is inclusive, so depth `max` itself is still checked; and with no
max and candidates remaining unfalsified forever the loop never exits (no
amount of fuel makes it stop). -/
theorem bmc_loop_guard_and_divergence :
    (∀ (r : CheckRes) (max : Option Nat) (next : Nat),
      bmcGuard (bmcIsDone r) max next = true ↔
        (r.okay ≠ [] ∧ ∀ m, max = some m → next ≤ m)) ∧
    (∀ (r : CheckRes) (m : Nat), r.okay ≠ [] →
      bmcGuard (bmcIsDone r) (some m) m = true) ∧
    (∀ (isDoneAt : Nat → Bool), (∀ k, isDoneAt k = false) →
      ∀ (fuel k : Nat), bmcLoop isDoneAt none fuel k = none) := by
  have hguard : ∀ (r : CheckRes) (max : Option Nat) (next : Nat),
      bmcGuard (bmcIsDone r) max next = true ↔
        (r.okay ≠ [] ∧ ∀ m, max = some m → next ≤ m) := by
    intro r max next
    cases max <;> simp [bmcGuard, bmcIsDone, List.isEmpty_iff]
  refine ⟨hguard, ?_, ?_⟩
  · intro r m h
    exact (hguard r (some m) m).mpr ⟨h, by simp⟩
  · intro isDoneAt h fuel
    induction fuel with
    | zero => intro k; rfl
    | succ n ih =>
      intro k
      have hg : bmcGuard (isDoneAt k) none k = true := by simp [bmcGuard, h k]
      simp only [bmcLoop, hg, if_true]
      exact ih (k + 1)

/-- Witness for `bmc_loop_guard_and_divergence`: a concrete unfalsified
candidate still gets checked at depth `max` itself, and a never-done loop is
still running after 12 iterations. -/
theorem bmc_loop_guard_and_divergence_witness :
    bmcGuard (bmcIsDone ⟨["le10"], ["le10"], []⟩) (some 10) 10 = true ∧
      bmcLoop (fun _ => false) none 12 0 = none :=
  ⟨bmc_loop_guard_and_divergence.2.1 ⟨["le10"], ["le10"], []⟩ 10 (by decide),
    bmc_loop_guard_and_divergence.2.2 (fun _ => false) (fun _ => rfl) 12 0⟩

/-- C7: every error of a base-check, step-check, or BMC operation is wrapped
with its short context string, propagated unchanged through `Check::run`
without consulting the remaining operations (so never retried), and surfaced
by `Run::launch` printing the whole error chain. -/
theorem error_context_propagation (e : ErrChain) (d : Nat) :
    baseCheck (.ok ()) (.error e) = .error ("during base check" :: e) ∧
      stepCheck (.ok ()) (.error e) = .error ("during step check" :: e) ∧
      bmcCheckAt d (.error e) =
        .error (("while checking for falsifications at depth " ++ toString d ++ " in BMC") :: e) ∧
      (∀ stepRes, checkRun (.error ("during base check" :: e)) stepRes =
        .error ("during base check" :: e)) ∧
      (∀ c, launchOutput (.error (c :: e)) =
        "|===| Error" :: ("| " ++ c) :: (e.map fun x => "| - " ++ x) ++ ["|===|"]) :=
  ⟨rfl, rfl, rfl, fun _ => rfl, fun _ => rfl⟩

/-- C8: `cla::validate_int` returns `Ok` for the empty string and for every
string of `char::is_numeric` characters whose first character is not an
ASCII `'0'` (besides `"0"` itself); hence some validator-accepted `--bmc_max`
values — the empty string, or a non-ASCII digit string such as the
Arabic-Indic digit U+0663 — make `usize::from_str_radix(_, 10)` fail, so
`get_bmc_max`'s `expect` panics instead of returning a number. -/
theorem validate_int_accepts_nonparsable :
    (∀ isNumeric, validateInt isNumeric [] = true) ∧
      (∀ (isNumeric : Char → Bool) (c : Char) (rest : List Char),
        isNumeric c = true → c ≠ '0' → rest.all isNumeric = true →
        validateInt isNumeric (c :: rest) = true) ∧
      (validateInt charIsNumericM [] = true ∧ fromStrRadix10 [] = none ∧
        getBmcMax (some []) = some none) ∧
      (validateInt charIsNumericM [Char.ofNat 0x663] = true ∧
        fromStrRadix10 [Char.ofNat 0x663] = none ∧
        getBmcMax (some [Char.ofNat 0x663]) = some none) := by
  refine ⟨fun _ => rfl, ?_, ⟨rfl, rfl, rfl⟩, ⟨by decide, by decide, by decide⟩⟩
  intro isNumeric c rest hnum hc0 hall
  have hne : (c :: rest) ≠ ['0'] := by
    intro h
    cases h
    exact hc0 rfl
  have hbeq : (c == '0') = false := by
    simp [hc0]
  simp only [validateInt, if_neg hne, validateIntLoop, if_pos rfl, hnum, hbeq,
    Bool.not_true, Bool.or_false, Bool.false_eq_true, if_false]
  exact validateIntLoop_all isNumeric rest 1 (by omega) hall

/-- Witness for `validate_int_accepts_nonparsable`: the all-numeric string
`"12"` (first character not `'0'`) is accepted by the validator. -/
theorem validate_int_accepts_nonparsable_witness :
    validateInt charIsNumericM ['1', '2'] = true :=
  validate_int_accepts_nonparsable.2.1 charIsNumericM '1' ['2'] (by decide) (by decide)
    (by decide)

/-- C6 counterexample: the demo fixture's candidate names are not
`"positive"`, `"not -7"`, `"reset→0"` — the file declares them as
`"cnt is positive"`, `"cnt is not -7"`, `"if reset then cnt is 0"`. -/
theorem demo_candidate_names_cex :
    ¬(demoSys.poS.map Prod.fst = ["positive", "not -7", "reset→0"]) := by
  decide

/-- C6 (amended): the stopwatch demo system declares `stop, reset : Bool` and
`cnt : Int`, initial predicate `(and (≥ cnt 0) (⇒ reset (= cnt 0)))`,
transition predicate
`(ite reset (= cnt 0) (ite stop (= cnt (pre cnt)) (= cnt (+ (pre cnt) 1))))`,
and exactly the three candidates `"cnt is positive" : (≥ cnt 0)`,
`"cnt is not -7" : (not (= cnt (- 7)))`,
`"if reset then cnt is 0" : (⇒ reset (= cnt 0))`, in that order. -/
theorem demo_system_structure :
    demoSys.vars = [("stop", Srt.bool), ("reset", Srt.bool), ("cnt", Srt.int)] ∧
      demoSys.init =
        Term.app Op.opAnd
          [ Term.app Op.opGe [Term.varT "cnt", Term.intC 0]
          , Term.app Op.opImplies
              [Term.varT "reset", Term.app Op.opEq [Term.varT "cnt", Term.intC 0]] ] ∧
      demoSys.trans =
        Term.app Op.opIte
          [ Term.varT "reset"
          , Term.app Op.opEq [Term.varT "cnt", Term.intC 0]
          , Term.app Op.opIte
              [ Term.varT "stop"
              , Term.app Op.opEq [Term.varT "cnt", Term.preT "cnt"]
              , Term.app Op.opEq
                  [Term.varT "cnt", Term.app Op.opAdd [Term.preT "cnt", Term.intC 1]] ] ] ∧
      demoSys.poS =
        [ ("cnt is positive", Term.app Op.opGe [Term.varT "cnt", Term.intC 0])
        , ("cnt is not -7",
            Term.app Op.opNot
              [Term.app Op.opEq [Term.varT "cnt", Term.app Op.opSub [Term.intC 7]]])
        , ("if reset then cnt is 0",
            Term.app Op.opImplies
              [Term.varT "reset", Term.app Op.opEq [Term.varT "cnt", Term.intC 0]]) ] :=
  ⟨rfl, rfl, rfl, rfl⟩

end Mikino
